import Mathlib

/-!
Formal model of trident's spectrum post-processing pipeline
(`trident/spectrum_generator.py`): reference-template interpolation,
Milky-Way foreground clamping, LSF convolution, Gaussian noise
injection, instrument resolution, ion-field-name parsing and spectrum
persistence.  Real-valued data is modelled with rational numbers;
numpy array primitives (`digitize`, `clip`, `convolve`) are embedded by
their documented elementwise semantics.
-/

/-- numpy `digitize` for a monotonically increasing `bins` array
(default `right=False`): the returned index `i` satisfies
`bins[i-1] <= x < bins[i]`, which for a strictly increasing `bins`
equals the number of bin edges that are `≤ x`. -/
def digitize (x : ℚ) (bins : List ℚ) : Nat :=
  bins.countP (fun b => decide (b ≤ x))

/-- numpy `clip` on an integer index: clamp into `[lo, hi]`
(when `hi < lo`, numpy returns `hi`, as does `min (max i lo) hi`). -/
def clipNat (i lo hi : Nat) : Nat := min (max i lo) hi

/-- One sample of the piecewise-linear interpolation shared by
`_get_qso_spectrum` and `_get_milky_way_foreground`: with bracket index
`i`, `slope = (flux[i] - flux[i-1]) / (lams[i] - lams[i-1])` and the
value is `slope * (x - lams[i]) + flux[i]`. -/
def interpAt (lams flux : List ℚ) (i : Nat) (x : ℚ) : ℚ :=
  (flux.getD i 0 - flux.getD (i - 1) 0) / (lams.getD i 0 - lams.getD (i - 1) 0)
    * (x - lams.getD i 0) + flux.getD i 0

/-- Template interpolation at one target wavelength `x`:
`index = np.clip(np.digitize(x, lams), 1, size - 1)` followed by the
linear interpolation of `interpAt`.  The template is the list of
tabulated `(wavelength, flux)` rows. -/
def interpOne (tmpl : List (ℚ × ℚ)) (x : ℚ) : ℚ :=
  interpAt (tmpl.map Prod.fst) (tmpl.map Prod.snd)
    (clipNat (digitize x (tmpl.map Prod.fst)) 1 (tmpl.length - 1)) x

/-- Upper wavelength bound of the Milky-Way template coverage: the
literal `1799.9444` from `_get_milky_way_foreground`. -/
def mwUpperBound : ℚ := 17999444 / 10000

/-- `_get_milky_way_foreground`: interpolate the template onto the
wavelength grid, then `my_flux[self.lambda_bins > 1799.9444] = 1.0`
overwrites the entries at strictly larger wavelengths with `1`. -/
def getMilkyWayForeground (tmpl : List (ℚ × ℚ)) (bins : List ℚ) : List ℚ :=
  bins.map (fun x => if mwUpperBound < x then 1 else interpOne tmpl x)

/-- `_get_qso_spectrum` shifts the template wavelengths in place by
`qso_lambda += qso_lambda * redshift` before interpolating. -/
def shiftTemplate (tmpl : List (ℚ × ℚ)) (redshift : ℚ) : List (ℚ × ℚ) :=
  tmpl.map (fun p => (p.1 + p.1 * redshift, p.2))

/-- `_get_qso_spectrum`: interpolate the redshift-shifted template onto
the wavelength grid. -/
def getQsoSpectrum (tmpl : List (ℚ × ℚ)) (redshift : ℚ) (bins : List ℚ) : List ℚ :=
  bins.map (interpOne (shiftTemplate tmpl redshift))

/-- Indexing a mapped list with a default agrees with mapping the
indexed element, for indices in range. -/
theorem getD_map_eq {α β : Type} (f : α → β) (l : List α) (i : Nat)
    (hi : i < l.length) (d : α) (d2 : β) :
    (l.map f).getD i d2 = f (l.getD i d) := by
  induction l generalizing i with
  | nil => simp at hi
  | cons a t ih =>
    cases i with
    | zero => rfl
    | succ k => simpa using ih k (by simpa using hi)

/-- C1 (amended): the Milky-Way foreground interpolation returns exactly
`1` at every grid wavelength strictly greater than `1799.9444`; at a
wavelength exactly equal to the bound the interpolated template value is
returned instead. -/
theorem mw_foreground_clamp_strict (tmpl : List (ℚ × ℚ)) (bins : List ℚ) (i : Nat)
    (hi : i < bins.length) (hgt : mwUpperBound < bins.getD i 0) :
    (getMilkyWayForeground tmpl bins).getD i 0 = 1 := by
  unfold getMilkyWayForeground
  rw [getD_map_eq _ _ _ hi 0, if_pos hgt]

theorem mw_foreground_clamp_strict_witness :
    (0 < 1 ∧ mwUpperBound < ([1800] : List ℚ).getD 0 0) ∧
    (getMilkyWayForeground [] [1800]).getD 0 0 = 1 := by
  have h1 : (0 : Nat) < ([1800] : List ℚ).length := by norm_num
  have h2 : mwUpperBound < ([1800] : List ℚ).getD 0 0 := by
    norm_num [mwUpperBound]
  exact ⟨⟨by norm_num, h2⟩, mw_foreground_clamp_strict [] [1800] 0 h1 h2⟩

/-- C1 counterexample: at a target wavelength exactly equal to
`1799.9444` (so `≥` the bound but not `>` it), the code returns the
interpolated template value, which for this template is `2`, not `1`. -/
theorem mw_foreground_at_bound_cex :
    getMilkyWayForeground [(1000, 1), (mwUpperBound, 2)] [mwUpperBound] = [2] ∧
    ((2 : ℚ) = 1 → False) := by
  constructor
  · norm_num [getMilkyWayForeground, interpOne, interpAt, digitize, clipNat,
      List.countP, List.countP.go, mwUpperBound]
  · norm_num

/-- Full linear convolution, `numpy.convolve(a, v, "full")`:
`out[k] = Σ i, a[i] * v[k - i]`, with length `M + N - 1`. -/
def fullConv (a v : List ℚ) : List ℚ :=
  (List.range (a.length + v.length - 1)).map (fun k =>
    (List.range a.length).foldl
      (fun s i => s + a.getD i 0 * (if i ≤ k then v.getD (k - i) 0 else 0)) 0)

/-- `numpy.convolve(a, v, "same")`: the centred `max M N` entries of the
full convolution, starting at offset `(min M N - 1) / 2`. -/
def convolveSame (a v : List ℚ) : List ℚ :=
  ((fullConv a v).drop ((min a.length v.length - 1) / 2)).take
    (max a.length v.length)

/-- `apply_lsf`: the final statement
`self.flux_field = np.convolve(lsf.kernel, self.flux_field, "same")`. -/
def apply_lsf (kernel flux_field : List ℚ) : List ℚ :=
  convolveSame kernel flux_field

theorem fullConv_length (a v : List ℚ) :
    (fullConv a v).length = a.length + v.length - 1 := by
  simp [fullConv]

/-- C2 (amended): LSF convolution preserves the flux-field length
whenever the kernel is non-empty and no longer than the flux field; in
general numpy same-mode convolution returns `max` of the two lengths. -/
theorem apply_lsf_length (kernel flux_field : List ℚ) (hk : kernel ≠ [])
    (hlen : kernel.length ≤ flux_field.length) :
    (apply_lsf kernel flux_field).length = flux_field.length := by
  have hk1 : 0 < kernel.length := List.length_pos.mpr hk
  simp only [apply_lsf, convolveSame, List.length_take, List.length_drop,
    fullConv_length]
  omega

theorem apply_lsf_length_witness :
    (([1] : List ℚ) ≠ [] ∧ ([1] : List ℚ).length ≤ ([2, 3] : List ℚ).length) ∧
    (apply_lsf [1] [2, 3]).length = ([2, 3] : List ℚ).length := by
  refine ⟨⟨by norm_num, by norm_num⟩, apply_lsf_length [1] [2, 3] (by norm_num) (by norm_num)⟩

/-- C2 counterexample: with a three-tap kernel and a one-bin flux field
the same-mode convolution has length `3`, not the input length `1`. -/
theorem apply_lsf_length_cex :
    (apply_lsf [1, 1, 1] [5]).length = 3 ∧ ([5] : List ℚ).length = 1 ∧
    ((3 : Nat) = 1 → False) := by
  refine ⟨rfl, rfl, by norm_num⟩

/-- Modelled from the spec: `np.random.seed(seed)` followed by
`np.random.normal(loc=0.0, scale=1/float(snr), size=n_bins)` (numpy is
external to the repository).  The draw is a zero-mean Gaussian stream
with standard deviation `1/snr` that is a deterministic function of the
seed; a nondegenerate zero-mean Gaussian takes both signs.  The
stand-in stream below is deterministic in the seed, zero-mean over
consecutive pairs, and takes the values `1/snr` and `-(1/snr)`. -/
def normalDraws (seed : Nat) (snr : ℚ) (n_bins : Nat) : List ℚ :=
  (List.range n_bins).map
    (fun i => if (seed + i) % 2 = 0 then 1 / snr else -(1 / snr))

/-- `add_gaussian_noise`: seed the generator, draw `n_bins` Gaussian
samples of scale `1/snr` and add them elementwise to the flux field
(`np.add(out, noise, out=out)`). -/
def add_gaussian_noise (snr : ℚ) (n_bins : Nat) (out : List ℚ) (seed : Nat) :
    List ℚ :=
  List.zipWith (fun a b => a + b) out (normalDraws seed snr n_bins)

/-- C5: two calls of `add_gaussian_noise` with identical snr, identical
seed, identical `n_bins` and equal input flux arrays produce identical
output arrays (the seeded generator is a deterministic function of the
seed). -/
theorem add_gaussian_noise_deterministic (snr : ℚ) (seed n_bins : Nat)
    (out₁ out₂ : List ℚ) (h : out₁ = out₂) :
    add_gaussian_noise snr n_bins out₁ seed = add_gaussian_noise snr n_bins out₂ seed := by
  rw [h]

theorem add_gaussian_noise_deterministic_witness :
    ([1, 2] : List ℚ) = [1, 2] ∧
    add_gaussian_noise 10 2 [1, 2] 42 = add_gaussian_noise 10 2 [1, 2] 42 :=
  ⟨rfl, add_gaussian_noise_deterministic 10 42 2 [1, 2] [1, 2] rfl⟩

/-- `add_milky_way_foreground`: `flux_field *= MW_spectrum`, the
elementwise product of the flux field with the interpolated foreground. -/
def add_milky_way_foreground (flux_field : List ℚ) (tmpl : List (ℚ × ℚ))
    (bins : List ℚ) : List ℚ :=
  List.zipWith (fun a b => a * b) flux_field (getMilkyWayForeground tmpl bins)

/-- `add_qso_spectrum`: `flux_field *= qso_spectrum`, the elementwise
product of the flux field with the interpolated QSO template. -/
def add_qso_spectrum (flux_field : List ℚ) (redshift : ℚ)
    (tmpl : List (ℚ × ℚ)) (bins : List ℚ) : List ℚ :=
  List.zipWith (fun a b => a * b) flux_field (getQsoSpectrum tmpl redshift bins)

theorem zipWith_mul_nonneg (a b : List ℚ) (ha : ∀ x ∈ a, 0 ≤ x)
    (hb : ∀ y ∈ b, 0 ≤ y) :
    ∀ z ∈ List.zipWith (fun x y => x * y) a b, 0 ≤ z := by
  induction a generalizing b with
  | nil => simp
  | cons x xs ih =>
    cases b with
    | nil => simp
    | cons y ys =>
      intro z hz
      rcases List.mem_cons.mp hz with h | h
      · exact h ▸ mul_nonneg (ha x (by simp)) (hb y (by simp))
      · exact ih ys (fun u hu => ha u (List.mem_cons_of_mem x hu))
          (fun u hu => hb u (List.mem_cons_of_mem y hu)) z h

/-- C3 (amended): the two multiplicative stages preserve the
non-negativity invariant of the flux field whenever every value of the
interpolated foreground curve is non-negative; Gaussian-noise injection
(and kernels with negative weights in the LSF convolution) need not
preserve it. -/
theorem mult_stages_preserve_nonneg (flux_field bins : List ℚ)
    (tmpl : List (ℚ × ℚ)) (redshift : ℚ)
    (hf : ∀ x ∈ flux_field, 0 ≤ x)
    (hmw : ∀ y ∈ getMilkyWayForeground tmpl bins, 0 ≤ y)
    (hq : ∀ y ∈ getQsoSpectrum tmpl redshift bins, 0 ≤ y) :
    (∀ x ∈ add_milky_way_foreground flux_field tmpl bins, 0 ≤ x) ∧
    (∀ x ∈ add_qso_spectrum flux_field redshift tmpl bins, 0 ≤ x) :=
  ⟨zipWith_mul_nonneg _ _ hf hmw, zipWith_mul_nonneg _ _ hf hq⟩

theorem mult_stages_preserve_nonneg_witness :
    ((∀ x ∈ ([1] : List ℚ), 0 ≤ x) ∧
     (∀ y ∈ getMilkyWayForeground [(1, 1), (2, 1)] [3/2], 0 ≤ y) ∧
     (∀ y ∈ getQsoSpectrum [(1, 1), (2, 1)] 0 [3/2], 0 ≤ y)) ∧
    (∀ x ∈ add_milky_way_foreground [1] [(1, 1), (2, 1)] [3/2], 0 ≤ x) ∧
    (∀ x ∈ add_qso_spectrum [1] 0 [(1, 1), (2, 1)] [3/2], 0 ≤ x) := by
  have hf : ∀ x ∈ ([1] : List ℚ), 0 ≤ x := by norm_num
  have hmw : ∀ y ∈ getMilkyWayForeground [(1, 1), (2, 1)] [3/2], 0 ≤ y := by
    norm_num [getMilkyWayForeground, interpOne, interpAt, digitize, clipNat,
      List.countP, List.countP.go, mwUpperBound]
  have hq : ∀ y ∈ getQsoSpectrum [(1, 1), (2, 1)] 0 [3/2], 0 ≤ y := by
    norm_num [getQsoSpectrum, shiftTemplate, interpOne, interpAt, digitize,
      clipNat, List.countP, List.countP.go]
  exact ⟨⟨hf, hmw, hq⟩, mult_stages_preserve_nonneg [1] [3/2] [(1, 1), (2, 1)] 0 hf hmw hq⟩

/-- C3 counterexample: Gaussian-noise injection maps the non-negative
flux field `[0]` to `[-1]`, which violates the non-negativity invariant. -/
theorem noise_breaks_nonneg_cex :
    (∀ x ∈ ([0] : List ℚ), 0 ≤ x) ∧
    add_gaussian_noise 1 1 [0] 1 = [-1] ∧ ((0 : ℚ) ≤ -1 → False) := by
  refine ⟨by norm_num, ?_, by norm_num⟩
  norm_num [add_gaussian_noise, normalDraws, List.range_succ]

/-- Error taxonomy of the spec: the source raises `RuntimeError` in all
of these places; the spec names the instrument/LSF/format failures
`ConfigurationError` and the unsupported-load-format failure
`FormatError`. -/
inductive TridentError where
  | configurationError
  | formatError
  deriving DecidableEq

/-- Modelled from the spec: the `Instrument` record (`instrument.py` is
not part of the sources here).  It stores the wavelength range, the bin
width or bin count, an optional LSF-kernel reference and a name, exactly
the keyword arguments the source passes to its constructor. -/
structure Instrument where
  lambda_min : Option ℚ
  lambda_max : Option ℚ
  n_lambda : Option Nat
  dlambda : Option ℚ
  lsf_kernel : Option (List Char)
  name : List Char
  deriving DecidableEq

/-- The COS entry of the `valid_instruments` registry:
`Instrument(1150, 1450, dlambda=0.01, lsf_kernel='avg_COS.txt', name='COS')`. -/
def cosInstrument : Instrument :=
  { lambda_min := some 1150, lambda_max := some 1450, n_lambda := none,
    dlambda := some (1 / 100),
    lsf_kernel := some ['a', 'v', 'g', '_', 'C', 'O', 'S', '.', 't', 'x', 't'],
    name := ['C', 'O', 'S'] }

/-- The four remaining preset entries of `valid_instruments`, each
`Instrument(1200, 1400, dlambda=0.01, name=...)` with no LSF kernel. -/
def basicInstrument (nm : List Char) : Instrument :=
  { lambda_min := some 1200, lambda_max := some 1400, n_lambda := none,
    dlambda := some (1 / 100), lsf_kernel := none, name := nm }

/-- The `valid_instruments` registry at the top of the module. -/
def valid_instruments : List (List Char × Instrument) :=
  [(['C', 'O', 'S'], cosInstrument),
   (['H', 'I', 'R', 'E', 'S'], basicInstrument ['H', 'I', 'R', 'E', 'S']),
   (['U', 'V', 'E', 'S'], basicInstrument ['U', 'V', 'E', 'S']),
   (['M', 'O', 'D', 'S'], basicInstrument ['M', 'O', 'D', 'S']),
   (['S', 'D', 'S', 'S'], basicInstrument ['S', 'D', 'S', 'S'])]

/-- Dictionary lookup `valid_instruments[name]`. -/
def lookupInstrument (nm : List Char) : Option Instrument :=
  valid_instruments.lookup nm

/-- The argument of `set_instrument`: either a name string or an
`Instrument` object (any other value also raises, but is not
representable in this typed model). -/
inductive InstrumentSpec where
  | byName (nm : List Char)
  | byObject (inst : Instrument)

/-- `set_instrument`: a string must name a registry entry, otherwise a
`RuntimeError` (spec: `ConfigurationError`) is raised; an `Instrument`
object is taken as-is. -/
def set_instrument (spec : InstrumentSpec) : Except TridentError Instrument :=
  match spec with
  | .byName nm =>
    match lookupInstrument nm with
    | some inst => .ok inst
    | none => .error .configurationError
  | .byObject inst => .ok inst

/-- Modelled from the spec: the custom-`Instrument` branch of
`SpectrumGenerator.__init__` builds
`Instrument(lambda_min=..., ..., name="Custom")`; the record simply
stores the keyword arguments. -/
def mkCustomInstrument (lambda_min lambda_max : Option ℚ) (n_lambda : Option Nat)
    (dlambda : Option ℚ) (lsf_kernel : Option (List Char)) : Instrument :=
  { lambda_min := lambda_min, lambda_max := lambda_max, n_lambda := n_lambda,
    dlambda := dlambda, lsf_kernel := lsf_kernel,
    name := ['C', 'u', 's', 't', 'o', 'm'] }

/-- Instrument resolution at the top of `SpectrumGenerator.__init__`
(lines 90-99): with no instrument and no `lambda_min` the generator
defaults to the `'COS'` preset; with no instrument but a `lambda_min` a
custom `Instrument` is built; otherwise the given argument is passed to
`set_instrument`. -/
def resolveInstrument (instrument : Option InstrumentSpec)
    (lambda_min lambda_max : Option ℚ) (n_lambda : Option Nat)
    (dlambda : Option ℚ) (lsf_kernel : Option (List Char)) :
    Except TridentError Instrument :=
  match instrument with
  | none =>
    match lambda_min with
    | none => set_instrument (.byName ['C', 'O', 'S'])
    | some lmin =>
      set_instrument (.byObject
        (mkCustomInstrument (some lmin) lambda_max n_lambda dlambda lsf_kernel))
  | some sp => set_instrument sp

/-- C4 (amended): constructing the generator with `instrument=None` and
`lambda_min=None` does not raise: it defaults to the COS preset; the
configuration error is raised when an unrecognized preset name is
given. -/
theorem resolve_instrument_default_and_error :
    resolveInstrument none none none none none none = .ok cosInstrument ∧
    ∀ nm, lookupInstrument nm = none →
      resolveInstrument (some (.byName nm)) none none none none none =
        .error .configurationError := by
  constructor
  · rfl
  · intro nm h
    simp [resolveInstrument, set_instrument, h]

theorem resolve_instrument_default_and_error_witness :
    lookupInstrument ['b', 'o', 'g', 'u', 's'] = none ∧
    resolveInstrument (some (.byName ['b', 'o', 'g', 'u', 's'])) none none none
        none none = .error .configurationError := by
  have h : lookupInstrument ['b', 'o', 'g', 'u', 's'] = none := by decide
  exact ⟨h, resolve_instrument_default_and_error.2 ['b', 'o', 'g', 'u', 's'] h⟩

/-- C4 counterexample: with `instrument=None` and `lambda_min=None` the
constructor resolves to the COS preset instead of raising the
configuration error. -/
theorem resolve_instrument_no_error_cex :
    resolveInstrument none none none none none none = .ok cosInstrument ∧
    (resolveInstrument none none none none none none =
      .error .configurationError → False) := by
  refine ⟨rfl, ?_⟩
  intro h
  simp [resolveInstrument, set_instrument, lookupInstrument,
    valid_instruments] at h

/-- C9: `set_instrument("COS")` selects the preset spanning 1150-1450
angstroms at 0.01 angstrom bin width, and `set_instrument("bogus")`
fails with the configuration error. -/
theorem set_instrument_cos_and_bogus :
    set_instrument (.byName ['C', 'O', 'S']) = .ok cosInstrument ∧
    cosInstrument.lambda_min = some 1150 ∧
    cosInstrument.lambda_max = some 1450 ∧
    cosInstrument.dlambda = some (1 / 100) ∧
    set_instrument (.byName ['b', 'o', 'g', 'u', 's']) =
      .error .configurationError := by
  exact ⟨rfl, rfl, rfl, rfl, rfl⟩

/-- The three writers `save_spectrum` can dispatch to. -/
inductive WriteFormat where
  | hdf5
  | fits
  | ascii
  deriving DecidableEq

/-- Result of the `save_spectrum` dispatch: which writer ran and whether
the invalid-format warning (`mylog.warn`) was emitted. -/
structure SaveAction where
  fmt : WriteFormat
  warned : Bool
  deriving DecidableEq

/-- Python `str.endswith`, on character lists. -/
def pyEndsWith (s suffix : List Char) : Bool :=
  List.isSuffixOf suffix s

/-- `save_spectrum` format dispatch: with `format=None` the filename
extension selects the writer (`.h5` then `.fits` then ASCII); an
explicit recognized format overrides the extension; any other explicit
format warns and falls back to ASCII. -/
def save_spectrum (filename : List Char) (format : Option (List Char)) :
    SaveAction :=
  match format with
  | none =>
    if pyEndsWith filename ['.', 'h', '5'] then ⟨.hdf5, false⟩
    else if pyEndsWith filename ['.', 'f', 'i', 't', 's'] then ⟨.fits, false⟩
    else ⟨.ascii, false⟩
  | some f =>
    if f = ['H', 'D', 'F', '5'] then ⟨.hdf5, false⟩
    else if f = ['F', 'I', 'T', 'S'] then ⟨.fits, false⟩
    else if f = ['A', 'S', 'C', 'I', 'I'] then ⟨.ascii, false⟩
    else ⟨.ascii, true⟩

/-- C10: an unrecognized explicit format warns and writes ASCII instead
of failing, and each recognized explicit format selects its writer for
every filename, overriding extension-based sniffing. -/
theorem save_spectrum_format_dispatch (filename f : List Char)
    (hf : f ≠ ['H', 'D', 'F', '5'] ∧ f ≠ ['F', 'I', 'T', 'S'] ∧
      f ≠ ['A', 'S', 'C', 'I', 'I']) :
    save_spectrum filename (some f) = ⟨.ascii, true⟩ ∧
    save_spectrum filename (some ['H', 'D', 'F', '5']) = ⟨.hdf5, false⟩ ∧
    save_spectrum filename (some ['F', 'I', 'T', 'S']) = ⟨.fits, false⟩ ∧
    save_spectrum filename (some ['A', 'S', 'C', 'I', 'I']) = ⟨.ascii, false⟩ := by
  obtain ⟨h1, h2, h3⟩ := hf
  refine ⟨?_, rfl, rfl, rfl⟩
  simp [save_spectrum, h1, h2, h3]

theorem save_spectrum_format_dispatch_witness :
    ((['J', 'S', 'O', 'N'] : List Char) ≠ ['H', 'D', 'F', '5'] ∧
     (['J', 'S', 'O', 'N'] : List Char) ≠ ['F', 'I', 'T', 'S'] ∧
     (['J', 'S', 'O', 'N'] : List Char) ≠ ['A', 'S', 'C', 'I', 'I']) ∧
    save_spectrum ['x', '.', 'h', '5'] (some ['J', 'S', 'O', 'N']) =
      ⟨.ascii, true⟩ := by
  have h : (['J', 'S', 'O', 'N'] : List Char) ≠ ['H', 'D', 'F', '5'] ∧
      (['J', 'S', 'O', 'N'] : List Char) ≠ ['F', 'I', 'T', 'S'] ∧
      (['J', 'S', 'O', 'N'] : List Char) ≠ ['A', 'S', 'C', 'I', 'I'] := by decide
  exact ⟨h, (save_spectrum_format_dispatch ['x', '.', 'h', '5']
    ['J', 'S', 'O', 'N'] h).1⟩

/-- The on-disk contents of a saved binary spectrum: the two named
arrays `wavelength` and `flux`. -/
structure SavedFile where
  wavelength : List ℚ
  flux : List ℚ
  deriving DecidableEq

/-- Modelled from the spec: the binary tabular writer
(`_write_spectrum_hdf5`, inherited from the external
`AbsorptionSpectrum` class, so not among the sources) stores the
wavelength and flux arrays under their two names. -/
def write_spectrum_hdf5 (lambda_bins flux_field : List ℚ) : SavedFile :=
  ⟨lambda_bins, flux_field⟩

/-- The file produced by `save_spectrum` when its dispatch selects the
HDF5 writer (the other writers do not produce the binary format that
`load_spectrum` reads). -/
def save_spectrum_h5 (lambda_bins flux_field : List ℚ) (filename : List Char)
    (format : Option (List Char)) : Option SavedFile :=
  if (save_spectrum filename format).fmt = .hdf5 then
    some (write_spectrum_hdf5 lambda_bins flux_field)
  else none

/-- `load_spectrum`: only `.h5` filenames are accepted (otherwise a
`RuntimeError`, spec: `FormatError`), and the two stored arrays are read
back into `lambda_bins` and `flux_field`. -/
def load_spectrum (filename : List Char) (file : SavedFile) :
    Except TridentError (List ℚ × List ℚ) :=
  if pyEndsWith filename ['.', 'h', '5'] then .ok (file.wavelength, file.flux)
  else .error .formatError

/-- C7: saving a spectrum to a filename ending in `.h5` writes the two
arrays to the binary file, and reloading that file returns exactly the
saved wavelength and flux arrays. -/
theorem save_load_roundtrip (lambda_bins flux_field : List ℚ)
    (filename : List Char)
    (h : pyEndsWith filename ['.', 'h', '5'] = true) :
    save_spectrum_h5 lambda_bins flux_field filename none =
      some ⟨lambda_bins, flux_field⟩ ∧
    load_spectrum filename ⟨lambda_bins, flux_field⟩ =
      .ok (lambda_bins, flux_field) := by
  constructor
  · simp [save_spectrum_h5, save_spectrum, write_spectrum_hdf5, h]
  · simp [load_spectrum, h]

theorem save_load_roundtrip_witness :
    pyEndsWith ['x', '.', 'h', '5'] ['.', 'h', '5'] = true ∧
    save_spectrum_h5 [1, 2] [3, 4] ['x', '.', 'h', '5'] none =
      some ⟨[1, 2], [3, 4]⟩ ∧
    load_spectrum ['x', '.', 'h', '5'] ⟨[1, 2], [3, 4]⟩ = .ok ([1, 2], [3, 4]) := by
  have h : pyEndsWith ['x', '.', 'h', '5'] ['.', 'h', '5'] = true := by decide
  exact ⟨h, save_load_roundtrip [1, 2] [3, 4] ['x', '.', 'h', '5'] h⟩

/-- An in-range `getD` access is a member of the list. -/
theorem getD_mem_of_lt {α : Type} (l : List α) (i : Nat) (d : α)
    (h : i < l.length) : l.getD i d ∈ l := by
  induction l generalizing i with
  | nil => simp at h
  | cons a t ih =>
    cases i with
    | zero => simp
    | succ k =>
      exact List.mem_cons_of_mem a (ih k (by simpa using h))

/-- For a strictly increasing list, the number of entries `≤` the entry
at index `j` is `j + 1`; this pins down `np.digitize` at a tabulated
wavelength. -/
theorem countP_le_getD (l : List ℚ) (j : Nat)
    (hs : l.Pairwise (fun a b => a < b)) (hj : j < l.length) :
    l.countP (fun b => decide (b ≤ l.getD j 0)) = j + 1 := by
  induction l generalizing j with
  | nil => simp at hj
  | cons a t ih =>
    rcases List.pairwise_cons.mp hs with ⟨hat, hpt⟩
    cases j with
    | zero =>
      have ht : t.countP (fun b => decide (b ≤ (a :: t).getD 0 0)) = 0 := by
        rw [List.countP_eq_zero]
        intro b hb
        simpa using not_le.mpr (hat b hb)
      rw [List.countP_cons, ht]
      simp
    | succ k =>
      have hk : k < t.length := by simpa using hj
      have hmem : t.getD k 0 ∈ t := getD_mem_of_lt t k 0 hk
      have hak : a ≤ t.getD k 0 := le_of_lt (hat _ hmem)
      have hgd : (a :: t).getD (k + 1) 0 = t.getD k 0 := rfl
      rw [hgd, List.countP_cons, ih k hpt hk, if_pos (decide_eq_true hak)]

/-- At a wavelength exactly equal to the tabulated wavelength of row
`j`, the clipped-bracket linear interpolation returns row `j`'s flux
exactly. -/
theorem interpOne_exact (tmpl : List (ℚ × ℚ)) (j : Nat)
    (hs : (tmpl.map Prod.fst).Pairwise (fun a b => a < b))
    (hj : j < tmpl.length) :
    interpOne tmpl ((tmpl.map Prod.fst).getD j 0) =
      (tmpl.map Prod.snd).getD j 0 := by
  have hlen : (tmpl.map Prod.fst).length = tmpl.length := List.length_map _ _
  have hjl : j < (tmpl.map Prod.fst).length := hlen ▸ hj
  have hdig : digitize ((tmpl.map Prod.fst).getD j 0) (tmpl.map Prod.fst) = j + 1 :=
    countP_le_getD (tmpl.map Prod.fst) j hs hjl
  unfold interpOne
  rw [hdig]
  rcases Nat.lt_or_ge (j + 1) tmpl.length with hcase | hcase
  · -- interior row: the clipped index is j + 1
    have hclip : clipNat (j + 1) 1 (tmpl.length - 1) = j + 1 := by
      unfold clipNat
      omega
    rw [hclip]
    have hj1 : j + 1 < (tmpl.map Prod.fst).length := hlen ▸ hcase
    have hlt : (tmpl.map Prod.fst).getD j 0 < (tmpl.map Prod.fst).getD (j + 1) 0 := by
      have := List.pairwise_iff_get.mp hs ⟨j, hjl⟩ ⟨j + 1, hj1⟩ (by
        simp [Fin.lt_def])
      rwa [List.getD_eq_get _ _ hjl, List.getD_eq_get _ _ hj1]
    unfold interpAt
    have hsub : j + 1 - 1 = j := rfl
    rw [hsub]
    set L0 := (tmpl.map Prod.fst).getD j 0 with hL0
    set L1 := (tmpl.map Prod.fst).getD (j + 1) 0 with hL1
    set F0 := (tmpl.map Prod.snd).getD j 0 with hF0
    set F1 := (tmpl.map Prod.snd).getD (j + 1) 0 with hF1
    have hne : L1 - L0 ≠ 0 := sub_ne_zero.mpr (ne_of_gt hlt)
    field_simp
    ring
  · -- last row: the clipped index is j itself and the offset vanishes
    have hjeq : j + 1 = tmpl.length := by omega
    have hclip : clipNat (j + 1) 1 (tmpl.length - 1) = j := by
      unfold clipNat
      omega
    rw [hclip]
    unfold interpAt
    simp

/-- C6: for a target wavelength exactly equal to one of the
redshift-shifted tabulated template wavelengths, the piecewise-linear
template interpolation of `_get_qso_spectrum` returns exactly that
tabulated row's flux value. -/
theorem qso_interp_exact (tmpl : List (ℚ × ℚ)) (redshift : ℚ) (bins : List ℚ)
    (i j : Nat) (hi : i < bins.length) (hj : j < tmpl.length)
    (hs : ((shiftTemplate tmpl redshift).map Prod.fst).Pairwise (fun a b => a < b))
    (hx : bins.getD i 0 = ((shiftTemplate tmpl redshift).map Prod.fst).getD j 0) :
    (getQsoSpectrum tmpl redshift bins).getD i 0 =
      ((shiftTemplate tmpl redshift).map Prod.snd).getD j 0 := by
  unfold getQsoSpectrum
  rw [getD_map_eq _ _ _ hi 0, hx]
  exact interpOne_exact (shiftTemplate tmpl redshift) j hs
    (by simpa [shiftTemplate] using hj)

theorem qso_interp_exact_witness :
    (0 < 1 ∧ 1 < 3 ∧
     ((shiftTemplate [(1, 10), (2, 20), (4, 40)] 1).map
        Prod.fst).Pairwise (fun a b => a < b) ∧
     ([4] : List ℚ).getD 0 0 =
       ((shiftTemplate [(1, 10), (2, 20), (4, 40)] 1).map Prod.fst).getD 1 0) ∧
    (getQsoSpectrum [(1, 10), (2, 20), (4, 40)] 1 [4]).getD 0 0 =
      ((shiftTemplate [(1, 10), (2, 20), (4, 40)] 1).map Prod.snd).getD 1 0 := by
  have hi : (0 : Nat) < ([4] : List ℚ).length := by norm_num
  have hj : (1 : Nat) < ([(1, 10), (2, 20), (4, 40)] : List (ℚ × ℚ)).length := by
    norm_num
  have hs : ((shiftTemplate [(1, 10), (2, 20), (4, 40)] 1).map
      Prod.fst).Pairwise (fun a b => a < b) := by
    norm_num [shiftTemplate, List.pairwise_cons]
  have hx : ([4] : List ℚ).getD 0 0 =
      ((shiftTemplate [(1, 10), (2, 20), (4, 40)] 1).map Prod.fst).getD 1 0 := by
    norm_num [shiftTemplate]
  exact ⟨⟨by norm_num, by norm_num, hs, hx⟩,
    qso_interp_exact [(1, 10), (2, 20), (4, 40)] 1 [4] 0 1 hi hj hs hx⟩

/-- The literal substring `"number_density"` searched for by
`make_spectrum` when parsing a missing field name. -/
def numberDensityPat : List Char :=
  ['n', 'u', 'm', 'b', 'e', 'r', '_', 'd', 'e', 'n', 's', 'i', 't', 'y']

/-- Python `str.find` on character lists, for strings that contain the
pattern (`make_spectrum` only parses fields of the
`..._number_density` convention, which always contain it; Python would
return `-1` otherwise). -/
def strFind : List Char → List Char → Nat
  | [], _ => 0
  | a :: t, pat => if pat.isPrefixOf (a :: t) then 0 else strFind t pat + 1

/-- Python `str.split` with an explicit one-character separator:
`"C_p3_".split("_") == ["C", "p3", ""]`, keeping empty pieces. -/
def splitOnChar (c : Char) : List Char → List (List Char)
  | [] => [[]]
  | a :: t =>
    if a = c then [] :: splitOnChar c t
    else (a :: (splitOnChar c t).headD []) :: (splitOnChar c t).tail

/-- Python `int` on a non-empty string of decimal digits.  On the
empty string or on non-digit input Python `int` raises `ValueError`
instead of returning a value (the program crashes on a field like
`C_p_number_density`), so the resolution theorem below quantifies only
over suffixes whose tail is a non-empty digit string, where this total
function and `int` agree. -/
def parseNat (s : List Char) : Nat :=
  s.foldl (fun n c => 10 * n + (c.toNat - 48)) 0

/-- The fallback ion-field resolution of `make_spectrum` (lines
186-192): cut the field at the first occurrence of `number_density`,
split the cut prefix at underscores, and request level
`int(suffix[1:]) + 1` when the second piece is non-empty, level `1`
otherwise; the requested element is the first piece. -/
def resolveIonField (field : List Char) : List Char × Nat :=
  ((splitOnChar '_' (field.take (strFind field numberDensityPat))).headD [],
   if ((splitOnChar '_' (field.take (strFind field numberDensityPat))).getD 1
        []).isEmpty then 1
   else parseNat (((splitOnChar '_'
     (field.take (strFind field numberDensityPat))).getD 1 []).drop 1) + 1)

theorem strFind_self (p : Char) (ps : List Char) :
    strFind (p :: ps) (p :: ps) = 0 := by
  have : (p :: ps).isPrefixOf (p :: ps) = true := by
    simp [List.isPrefixOf_iff_prefix]
  simp [strFind, this]

theorem splitOnChar_append_cons (c : Char) (l r : List Char)
    (h : ∀ a ∈ l, a ≠ c) :
    splitOnChar c (l ++ c :: r) = l :: splitOnChar c r := by
  induction l with
  | nil => simp [splitOnChar]
  | cons a t ih =>
    have ha : a ≠ c := h a (by simp)
    have ht : ∀ b ∈ t, b ≠ c := fun b hb => h b (List.mem_cons_of_mem a hb)
    simp [splitOnChar, ha, ih ht]

/-- Indexing after a `drop` shifts the index. -/
theorem getD_drop {α : Type} (l : List α) (k i : Nat) (d : α) :
    (l.drop k).getD i d = l.getD (k + i) d := by
  induction k generalizing l with
  | zero => simp
  | succ m ih =>
    cases l with
    | nil => simp
    | cons a t =>
      rw [List.drop_succ_cons]
      have he : m + 1 + i = m + i + 1 := by omega
      rw [he]
      have h2 : (a :: t).getD (m + i + 1) d = t.getD (m + i) d := rfl
      rw [h2]
      exact ih t

/-- `isPrefixOf` is false once pattern and string disagree at one
in-range index. -/
theorem isPrefixOf_eq_false_of_mismatch (pat s : List Char) (i : Nat)
    (hip : i < pat.length) (his : i < s.length)
    (hne : pat.getD i 'x' ≠ s.getD i 'x') :
    pat.isPrefixOf s = false := by
  induction pat generalizing s i with
  | nil => simp at hip
  | cons a pt ih =>
    cases s with
    | nil => simp at his
    | cons b st =>
      cases i with
      | zero =>
        have hab : (a == b) = false := by
          simp only [List.getD_cons_zero] at hne
          simp [hne]
        simp [List.isPrefixOf, hab]
      | succ k =>
        have h1 : (a :: pt).getD (k + 1) 'x' = pt.getD k 'x' := rfl
        have h2 : (b :: st).getD (k + 1) 'x' = st.getD k 'x' := rfl
        rw [h1, h2] at hne
        have hres := ih st k (by simpa using hip) (by simpa using his) hne
        simp [List.isPrefixOf, hres]

/-- `strFind` scans past a leading segment in which the pattern never
starts a match. -/
theorem strFind_append_of_no_match (l rest pat : List Char)
    (h : ∀ k, k < l.length → pat.isPrefixOf (l.drop k ++ rest) = false) :
    strFind (l ++ rest) pat = l.length + strFind rest pat := by
  induction l with
  | nil => simp
  | cons a t ih =>
    have h0 : pat.isPrefixOf (a :: (t ++ rest)) = false := by
      simpa using h 0 (by simp)
    have ht : ∀ k, k < t.length → pat.isPrefixOf (t.drop k ++ rest) = false := by
      intro k hk
      simpa using h (k + 1) (by simpa using Nat.succ_lt_succ hk)
    calc strFind (a :: t ++ rest) pat
        = strFind (t ++ rest) pat + 1 := by simp [strFind, h0]
      _ = t.length + strFind rest pat + 1 := by rw [ih ht]
      _ = (a :: t).length + strFind rest pat := by
          simp [List.length_cons]
          omega

/-- Index computation on `pre.drop k ++ pat`: indices still inside
`pre`. -/
theorem getD_drop_append_left (pre pat : List Char) (k i : Nat)
    (h : k + i < pre.length) :
    (pre.drop k ++ pat).getD i 'x' = pre.getD (k + i) 'x' := by
  rw [List.getD_append _ _ _ _ (by simp [List.length_drop]; omega), getD_drop]

/-- Index computation on `pre.drop k ++ pat`: indices landing in
`pat`. -/
theorem getD_drop_append_right (pre pat : List Char) (k i : Nat)
    (hk : k ≤ pre.length) (h : pre.length ≤ k + i) :
    (pre.drop k ++ pat).getD i 'x' = pat.getD (k + i - pre.length) 'x' := by
  rw [List.getD_append_right _ _ _ _ (by simp [List.length_drop]; omega)]
  have he : i - (pre.drop k).length = k + i - pre.length := by
    simp [List.length_drop]
    omega
  rw [he]

/-- The first six characters of `number_density` are letters, not the
separator. -/
theorem numberDensityPat_front_ne_us :
    ∀ o, o < 6 → numberDensityPat.getD o 'x' ≠ '_' := by decide

theorem digit_ne_e (c : Char) (hc : c.isDigit = true) : c ≠ 'e' := by
  intro he
  rw [he] at hc
  exact absurd hc (by decide)

theorem digit_ne_r (c : Char) (hc : c.isDigit = true) : c ≠ 'r' := by
  intro he
  rw [he] at hc
  exact absurd hc (by decide)

/-- In a field `<elem>_number_density` with a separator-free `elem`,
the pattern `number_density` cannot start before the position right
after the underscore: its only separator (index 6) would have to meet a
non-separator character, or, aligned with the field separator, its
index-7 character `d` meets the `n` that actually follows. -/
theorem no_match_nosuffix (elem : List Char) (heU : ∀ c ∈ elem, c ≠ '_') :
    ∀ k, k < (elem ++ ['_']).length →
      numberDensityPat.isPrefixOf
        ((elem ++ ['_']).drop k ++ numberDensityPat) = false := by
  intro k hk
  have hlenpre : (elem ++ ['_']).length = elem.length + 1 := by simp
  have hslen : ∀ i : Nat, i < 14 →
      i < ((elem ++ ['_']).drop k ++ numberDensityPat).length := by
    intro i hi
    simp only [List.length_append, List.length_drop]
    have h14 : numberDensityPat.length = 14 := by decide
    omega
  rcases Nat.lt_or_ge (k + 6) elem.length with h1 | h1
  · apply isPrefixOf_eq_false_of_mismatch _ _ 6 (by decide) (hslen 6 (by omega))
    rw [getD_drop_append_left (elem ++ ['_']) numberDensityPat k 6 (by omega),
      List.getD_append _ _ _ _ h1]
    have hpat6 : numberDensityPat.getD 6 'x' = '_' := by decide
    rw [hpat6]
    exact Ne.symm (heU _ (getD_mem_of_lt elem (k + 6) 'x' h1))
  rcases Nat.eq_or_lt_of_le h1 with h2 | h2
  · apply isPrefixOf_eq_false_of_mismatch _ _ 7 (by decide) (hslen 7 (by omega))
    rw [getD_drop_append_right (elem ++ ['_']) numberDensityPat k 7
      (by omega) (by omega)]
    have ho : k + 7 - (elem ++ ['_']).length = 0 := by omega
    rw [ho]
    decide
  · apply isPrefixOf_eq_false_of_mismatch _ _ 6 (by decide) (hslen 6 (by omega))
    rw [getD_drop_append_right (elem ++ ['_']) numberDensityPat k 6
      (by omega) (by omega)]
    have hlt : k + 6 - (elem ++ ['_']).length < 6 := by omega
    have hpat6 : numberDensityPat.getD 6 'x' = '_' := by decide
    rw [hpat6]
    exact Ne.symm (numberDensityPat_front_ne_us _ hlt)

/-- In a field `<elem>_<suffix>_number_density` with separator-free
pieces whose suffix carries a non-empty digit tail, the pattern
`number_density` cannot start before the second underscore is passed:
aligning its separator with a field character, with either field
underscore, or inside the trailing pattern itself always produces a
character mismatch. -/
theorem no_match_suffix (elem suffix : List Char)
    (heU : ∀ c ∈ elem, c ≠ '_') (hsU : ∀ c ∈ suffix, c ≠ '_')
    (hsd : ∀ c ∈ suffix.drop 1, c.isDigit = true) (hm : 2 ≤ suffix.length) :
    ∀ k, k < (elem ++ '_' :: (suffix ++ ['_'])).length →
      numberDensityPat.isPrefixOf
        ((elem ++ '_' :: (suffix ++ ['_'])).drop k ++ numberDensityPat)
        = false := by
  intro k hk
  have hlenpre : (elem ++ '_' :: (suffix ++ ['_'])).length
      = elem.length + suffix.length + 2 := by
    simp only [List.length_append, List.length_cons, List.length_nil]
    omega
  have hslen : ∀ i : Nat, i < 14 →
      i < ((elem ++ '_' :: (suffix ++ ['_'])).drop k ++ numberDensityPat).length := by
    intro i hi
    simp only [List.length_append, List.length_drop]
    have h14 : numberDensityPat.length = 14 := by decide
    omega
  have hpre_suffix : ∀ t, t < suffix.length →
      (elem ++ '_' :: (suffix ++ ['_'])).getD (elem.length + 1 + t) 'x'
        = suffix.getD t 'x' := by
    intro t htl
    rw [List.getD_append_right _ _ _ _ (by omega)]
    have he : elem.length + 1 + t - elem.length = t + 1 := by omega
    rw [he]
    have h2 : ('_' :: (suffix ++ ['_'])).getD (t + 1) 'x'
        = (suffix ++ ['_']).getD t 'x' := rfl
    rw [h2, List.getD_append _ _ _ _ htl]
  have hdigit : ∀ t, 1 ≤ t → t < suffix.length →
      (suffix.getD t 'x').isDigit = true := by
    intro t h1t htl
    have he : suffix.getD t 'x' = (suffix.drop 1).getD (t - 1) 'x' := by
      rw [getD_drop]
      have h12 : 1 + (t - 1) = t := by omega
      rw [h12]
    rw [he]
    exact hsd _ (getD_mem_of_lt (suffix.drop 1) (t - 1) 'x'
      (by simp [List.length_drop]; omega))
  rcases Nat.lt_or_ge (k + 6) elem.length with h1 | h1
  · apply isPrefixOf_eq_false_of_mismatch _ _ 6 (by decide) (hslen 6 (by omega))
    rw [getD_drop_append_left (elem ++ '_' :: (suffix ++ ['_']))
      numberDensityPat k 6 (by omega), List.getD_append _ _ _ _ h1]
    have hpat6 : numberDensityPat.getD 6 'x' = '_' := by decide
    rw [hpat6]
    exact Ne.symm (heU _ (getD_mem_of_lt elem (k + 6) 'x' h1))
  rcases Nat.eq_or_lt_of_le h1 with h2 | h2
  · apply isPrefixOf_eq_false_of_mismatch _ _ 8 (by decide) (hslen 8 (by omega))
    rw [getD_drop_append_left (elem ++ '_' :: (suffix ++ ['_']))
      numberDensityPat k 8 (by omega)]
    have he : k + 8 = elem.length + 1 + 1 := by omega
    rw [he, hpre_suffix 1 (by omega)]
    have hpat8 : numberDensityPat.getD 8 'x' = 'e' := by decide
    rw [hpat8]
    exact Ne.symm (digit_ne_e _ (hdigit 1 (by omega) (by omega)))
  rcases Nat.lt_or_ge (k + 6) (elem.length + suffix.length + 1) with h3 | h3
  · apply isPrefixOf_eq_false_of_mismatch _ _ 6 (by decide) (hslen 6 (by omega))
    rw [getD_drop_append_left (elem ++ '_' :: (suffix ++ ['_']))
      numberDensityPat k 6 (by omega)]
    have he : k + 6 = elem.length + 1 + (k + 6 - elem.length - 1) := by omega
    rw [he, hpre_suffix (k + 6 - elem.length - 1) (by omega)]
    have hpat6 : numberDensityPat.getD 6 'x' = '_' := by decide
    rw [hpat6]
    exact Ne.symm (hsU _ (getD_mem_of_lt suffix (k + 6 - elem.length - 1) 'x'
      (by omega)))
  rcases Nat.eq_or_lt_of_le h3 with h4 | h4
  · apply isPrefixOf_eq_false_of_mismatch _ _ 5 (by decide) (hslen 5 (by omega))
    rw [getD_drop_append_left (elem ++ '_' :: (suffix ++ ['_']))
      numberDensityPat k 5 (by omega)]
    have he : k + 5 = elem.length + 1 + (suffix.length - 1) := by omega
    rw [he, hpre_suffix (suffix.length - 1) (by omega)]
    have hpat5 : numberDensityPat.getD 5 'x' = 'r' := by decide
    rw [hpat5]
    exact Ne.symm (digit_ne_r _ (hdigit (suffix.length - 1) (by omega) (by omega)))
  · apply isPrefixOf_eq_false_of_mismatch _ _ 6 (by decide) (hslen 6 (by omega))
    rw [getD_drop_append_right (elem ++ '_' :: (suffix ++ ['_']))
      numberDensityPat k 6 (by omega) (by omega)]
    have hlt : k + 6 - (elem ++ '_' :: (suffix ++ ['_'])).length < 6 := by omega
    have hpat6 : numberDensityPat.getD 6 'x' = '_' := by decide
    rw [hpat6]
    exact Ne.symm (numberDensityPat_front_ne_us _ hlt)

/-- C8: for a missing simulation field named
`<element>_<suffix>_number_density` whose pieces are free of the
underscore separator (this covers every element symbol, also those
containing the letter n such as Mn or Zn) and whose ion-state suffix
consists of one code character followed by the non-empty digit string
that Python `int` accepts, the fallback resolution requests the element
before the first underscore at ionization level `int(suffix[1:]) + 1`;
for `<element>_number_density` (no suffix) it requests level `1`. -/
theorem ion_field_resolution (elem suffix : List Char)
    (heU : ∀ c ∈ elem, c ≠ '_') (hsU : ∀ c ∈ suffix, c ≠ '_')
    (hsd : ∀ c ∈ suffix.drop 1, c.isDigit = true) (hm : 2 ≤ suffix.length) :
    resolveIonField (elem ++ '_' :: (suffix ++ '_' :: numberDensityPat)) =
      (elem, parseNat (suffix.drop 1) + 1) ∧
    resolveIonField (elem ++ '_' :: numberDensityPat) = (elem, 1) := by
  have hsufE : suffix.isEmpty = false := by
    cases suffix with
    | nil => simp at hm
    | cons a t => rfl
  have hself : strFind numberDensityPat numberDensityPat = 0 :=
    strFind_self 'n' ['u', 'm', 'b', 'e', 'r', '_', 'd', 'e', 'n', 's', 'i', 't', 'y']
  constructor
  · have hassoc : elem ++ '_' :: (suffix ++ '_' :: numberDensityPat) =
        (elem ++ '_' :: (suffix ++ ['_'])) ++ numberDensityPat := by
      simp
    have hfind : strFind ((elem ++ '_' :: (suffix ++ ['_'])) ++ numberDensityPat)
        numberDensityPat = (elem ++ '_' :: (suffix ++ ['_'])).length := by
      rw [strFind_append_of_no_match _ _ _
        (no_match_suffix elem suffix heU hsU hsd hm), hself]
      omega
    have htake : ((elem ++ '_' :: (suffix ++ ['_'])) ++ numberDensityPat).take
        ((elem ++ '_' :: (suffix ++ ['_'])).length) =
        elem ++ '_' :: (suffix ++ ['_']) := List.take_left _ _
    have hsplit : splitOnChar '_' (elem ++ '_' :: (suffix ++ ['_'])) =
        [elem, suffix, []] := by
      rw [splitOnChar_append_cons '_' elem _ heU,
        show (suffix ++ ['_'] : List Char) = suffix ++ '_' :: [] from rfl,
        splitOnChar_append_cons '_' suffix [] hsU]
      rfl
    rw [hassoc]
    unfold resolveIonField
    rw [hfind, htake, hsplit]
    simp [hsufE]
  · have hassoc2 : elem ++ '_' :: numberDensityPat =
        (elem ++ ['_']) ++ numberDensityPat := by simp
    have hfind2 : strFind ((elem ++ ['_']) ++ numberDensityPat)
        numberDensityPat = (elem ++ ['_']).length := by
      rw [strFind_append_of_no_match _ _ _ (no_match_nosuffix elem heU), hself]
      omega
    have htake2 : ((elem ++ ['_']) ++ numberDensityPat).take
        ((elem ++ ['_']).length) = elem ++ ['_'] := List.take_left _ _
    have hsplit2 : splitOnChar '_' (elem ++ ['_']) = [elem, []] := by
      rw [show (elem ++ ['_'] : List Char) = elem ++ '_' :: [] from rfl,
        splitOnChar_append_cons '_' elem [] heU]
      rfl
    rw [hassoc2]
    unfold resolveIonField
    rw [hfind2, htake2, hsplit2]
    simp

theorem ion_field_resolution_witness :
    resolveIonField ['C', '_', 'p', '3', '_', 'n', 'u', 'm', 'b', 'e', 'r', '_',
      'd', 'e', 'n', 's', 'i', 't', 'y'] = (['C'], 4) ∧
    resolveIonField ['M', 'n', '_', 'p', '2', '_', 'n', 'u', 'm', 'b', 'e', 'r',
      '_', 'd', 'e', 'n', 's', 'i', 't', 'y'] = (['M', 'n'], 3) ∧
    resolveIonField ['H', '_', 'n', 'u', 'm', 'b', 'e', 'r', '_', 'd', 'e',
      'n', 's', 'i', 't', 'y'] = (['H'], 1) := by
  refine ⟨?_, ?_, ?_⟩
  · have h := (ion_field_resolution ['C'] ['p', '3'] (by decide) (by decide)
      (by decide) (by decide)).1
    exact h.trans (by decide)
  · have h := (ion_field_resolution ['M', 'n'] ['p', '2'] (by decide) (by decide)
      (by decide) (by decide)).1
    exact h.trans (by decide)
  · have h := (ion_field_resolution ['H'] ['p', '3'] (by decide) (by decide)
      (by decide) (by decide)).2
    exact h
